import Mathlib

/-
Verification of the re-introspection (reconciliation) engine and the
query-builder argument-extraction helper of the prisma-engines repository.

The reconciliation engine itself (entity matcher, attribute merger, order
resolver, warning collector, schema assembler) is exercised by the test
suite in introspection-engine-tests/tests/re_introspection/mod.rs; its
implementation is modelled here from the specification (spec.md sections
3, 4 and 6), with the concrete observable shapes (warning codes, messages
and affected-record shapes) taken from the assertions of that test suite.

The function extract_record_finder is translated directly from
query-engine/core/src/query_builders/utils.rs.
-/

namespace Reconcile

/-- Modelled from the spec: a catalog column as reported by the database
introspection collaborator (section 6, input A); missing source:
the introspection engine data model. -/
structure Column where
  name : String
  sqlType : String
  nullable : Bool
  nativeDefault : Option String
deriving DecidableEq

/-- Modelled from the spec: a catalog table (section 3, catalog side);
missing source: the introspection engine data model. Primary keys,
indexes and foreign keys are handled by the relation resolver, which is
modelled separately below. -/
structure Table where
  name : String
  columns : List Column
deriving DecidableEq

/-- Modelled from the spec: a named catalog enum type with its ordered
member list (section 3); missing source: the introspection engine data
model. -/
structure CatEnum where
  name : String
  values : List String
deriving DecidableEq

/-- Modelled from the spec: the catalog schema, input A of the assembler
(section 6). -/
structure CatalogSchema where
  tables : List Table
  enums : List CatEnum
deriving DecidableEq

/-- Modelled from the spec: a default value attribute of a scalar field.
A dbGenerated default is catalog visible; a clientGenerated default
(application-side id generators such as cuid or uuid) has no catalog
representation and is a virtual attribute (section 4.3). -/
inductive DefaultValue where
  | dbGenerated (value : String)
  | clientGenerated (generator : String)
deriving DecidableEq

/-- Modelled from the spec: a scalar field of the previous schema AST
(section 3, description side). -/
structure ScalarField where
  name : String
  mappedName : Option String
  fieldType : String
  optional : Bool
  defaultValue : Option DefaultValue
  isUpdatedAt : Bool
  doc : Option String
  ignored : Bool
deriving DecidableEq

/-- Modelled from the spec: a model of the previous schema AST
(section 3, description side). -/
structure Model where
  name : String
  mappedName : Option String
  doc : Option String
  fields : List ScalarField
  ignored : Bool
deriving DecidableEq

/-- Modelled from the spec: an enum value of the previous schema AST
(section 3, description side). -/
structure EnumValue where
  name : String
  mappedName : Option String
deriving DecidableEq

/-- Modelled from the spec: an enum of the previous schema AST
(section 3, description side). -/
structure PrismaEnum where
  name : String
  mappedName : Option String
  doc : Option String
  values : List EnumValue
deriving DecidableEq

/-- Modelled from the spec: the previous schema AST, input B of the
assembler, and also the shape of the merged output AST (section 6). -/
structure Datamodel where
  models : List Model
  enums : List PrismaEnum
deriving DecidableEq

/-- Modelled from the spec: an identifier record of a warning; the shape
depends on the code (section 6), with the concrete field names taken
from the expected JSON of the repository test suite: model records
carry a model name, field records a model and a field name, enum
records an enum name, enum value records an enum and a value name. -/
inductive Affected where
  | model (model : String)
  | field (model field : String)
  | enm (enm : String)
  | enumValue (enm value : String)
deriving DecidableEq

/-- Modelled from the spec: a coded warning with its ordered affected
sequence (section 3, engine internal data model). -/
structure Warning where
  code : Nat
  message : String
  affected : List Affected
deriving DecidableEq

/-- Modelled from the spec: the matchable-entity abstraction (section
4.1): any entity that can be matched exposes a canonical name and an
optional mapped alias name. -/
class Matchable (α : Type) where
  entityName : α → String
  entityMapped : α → Option String

open Matchable

instance : Matchable Model := ⟨Model.name, Model.mappedName⟩

instance : Matchable ScalarField := ⟨ScalarField.name, ScalarField.mappedName⟩

instance : Matchable PrismaEnum := ⟨PrismaEnum.name, PrismaEnum.mappedName⟩

instance : Matchable EnumValue := ⟨EnumValue.name, EnumValue.mappedName⟩

/-- Modelled from the spec: the generic two-pass entity matcher (section
4.2) seen from one catalog entity. Pass 1 matches a previous entity
whose name equals the catalog name; pass 2 matches a previous entity
whose mapped name equals the catalog name, provided that entity was not
already claimed by pass 1 (its own name does not occur among the
catalog names). Missing source: the introspection engine matcher. -/
def findMatch {α : Type} [Matchable α] (prevs : List α) (catNames : List String)
    (c : String) : Option α :=
  match prevs.find? (fun p => decide (entityName p = c)) with
  | some p => some p
  | none =>
    prevs.find? (fun p => decide (entityMapped p = some c ∧ entityName p ∉ catNames))

/-- Modelled from the spec: the catalog entity (if any) that a previous
entity is matched with; the matcher pairs each previous entity with at
most one catalog entity (section 4.2). -/
def matchedOf {α β : Type} [Matchable α] [DecidableEq α] (catName : β → String)
    (cats : List β) (prevs : List α) (p : α) : Option β :=
  cats.find? (fun c => decide (findMatch prevs (cats.map catName) (catName c) = some p))

/-- Modelled from the spec: whether a previous entity still has a catalog
match (section 4.2); unmatched previous entities are dropped. -/
def keptPrev {α β : Type} [Matchable α] [DecidableEq α] (catName : β → String)
    (cats : List β) (prevs : List α) (p : α) : Bool :=
  (matchedOf catName cats prevs p).isSome

/-- Modelled from the spec: whether a previous entity was matched through
the mapped-name pass, i.e. it is kept and its own name does not occur
among the catalog names (section 4.2); exactly these matches produce
enrichment records (section 4.3). -/
def mappedKept {α β : Type} [Matchable α] [DecidableEq α] (catName : β → String)
    (cats : List β) (prevs : List α) (p : α) : Bool :=
  (matchedOf catName cats prevs p).isSome &&
    !(decide (entityName p ∈ cats.map catName))

/-- Modelled from the spec: the generic per-category reconciliation
(sections 4.2 and 4.5). Previously declared entities that still have a
catalog match are kept in their previous relative order, merged with
their catalog counterpart; dropped entities are removed; newly
discovered catalog entities follow in catalog-yield order. Missing
source: the introspection engine assembler. -/
def reconcileList {α β : Type} [Matchable α] [DecidableEq α] (catName : β → String)
    (merge : β → α → α) (fresh : β → α) (cats : List β) (prevs : List α) : List α :=
  prevs.filterMap (fun p => (matchedOf catName cats prevs p).map (fun c => merge c p)) ++
    ((cats.filter
        (fun c => decide (findMatch prevs (cats.map catName) (catName c) = none))).map
      fresh)

/-- Modelled from the spec: the attribute merger for a matched column and
previous scalar field (section 4.3). Structural attributes (type,
nullability, catalog-visible default) come from the catalog; naming and
virtual attributes (mapped name, documentation, ignore marker, auto
update timestamp marker) are preserved from the previous field; a
client-side generated default is preserved exactly when the structural
shape (type, nullability) is unchanged, and dropped otherwise. -/
def mergeField (c : Column) (p : ScalarField) : ScalarField :=
  { name := p.name
    mappedName := p.mappedName
    fieldType := c.sqlType
    optional := c.nullable
    defaultValue :=
      match c.nativeDefault with
      | some d => some (DefaultValue.dbGenerated d)
      | none =>
        if p.fieldType = c.sqlType ∧ p.optional = c.nullable then
          match p.defaultValue with
          | some (DefaultValue.clientGenerated g) => some (DefaultValue.clientGenerated g)
          | _ => none
        else none
    isUpdatedAt := p.isUpdatedAt
    doc := p.doc
    ignored := p.ignored }

/-- Modelled from the spec: a freshly discovered column becomes a new
field with catalog-derived name and type and no mapping attribute
(section 4.2). -/
def newField (c : Column) : ScalarField :=
  { name := c.name
    mappedName := none
    fieldType := c.sqlType
    optional := c.nullable
    defaultValue := c.nativeDefault.map DefaultValue.dbGenerated
    isUpdatedAt := false
    doc := none
    ignored := false }

/-- Modelled from the spec: field reconciliation within a matched model
(section 4.2, parent-scoped matching). -/
def reconcileFields (cols : List Column) (prevs : List ScalarField) : List ScalarField :=
  reconcileList Column.name mergeField newField cols prevs

/-- Modelled from the spec: the attribute merger for a matched table and
previous model (section 4.3); the model keeps its name, mapping,
documentation and ignore marker, and its fields are reconciled against
the table columns. -/
def mergeModel (t : Table) (p : Model) : Model :=
  { name := p.name
    mappedName := p.mappedName
    doc := p.doc
    fields := reconcileFields t.columns p.fields
    ignored := p.ignored }

/-- Modelled from the spec: a freshly discovered table becomes a new
model with catalog-derived name and no mapping attribute (section 4.2). -/
def newModel (t : Table) : Model :=
  { name := t.name
    mappedName := none
    doc := none
    fields := t.columns.map newField
    ignored := false }

/-- Modelled from the spec: model reconciliation (sections 4.2 and 4.5). -/
def reconcileModels (tables : List Table) (prevs : List Model) : List Model :=
  reconcileList Table.name mergeModel newModel tables prevs

/-- Modelled from the spec: a matched enum value keeps its previous name
and mapping verbatim (section 4.3); an enum value has no structural
attributes beyond its raw catalog representation. -/
def mergeEnumValue (_raw : String) (p : EnumValue) : EnumValue := p

/-- Modelled from the spec: an unmatched catalog enum member is surfaced
as a new value using the raw value as its best-effort name, with no
mapping attribute; the engine never synthesizes a substitute identifier
(section 4.2). -/
def newEnumValue (raw : String) : EnumValue := ⟨raw, none⟩

/-- Modelled from the spec: enum value reconciliation within a matched
enum (section 4.2, parent-scoped matching). -/
def reconcileValues (raws : List String) (prevs : List EnumValue) : List EnumValue :=
  reconcileList (fun v => v) mergeEnumValue newEnumValue raws prevs

/-- Modelled from the spec: the attribute merger for a matched catalog
enum type and previous enum (section 4.3). -/
def mergeEnum (e : CatEnum) (p : PrismaEnum) : PrismaEnum :=
  { name := p.name
    mappedName := p.mappedName
    doc := p.doc
    values := reconcileValues e.values p.values }

/-- Modelled from the spec: a freshly discovered catalog enum type
becomes a new enum (section 4.2). -/
def newEnum (e : CatEnum) : PrismaEnum :=
  { name := e.name
    mappedName := none
    doc := none
    values := e.values.map newEnumValue }

/-- Modelled from the spec: enum reconciliation (sections 4.2 and 4.5). -/
def reconcileEnums (enums : List CatEnum) (prevs : List PrismaEnum) : List PrismaEnum :=
  reconcileList CatEnum.name mergeEnum newEnum enums prevs

/-- Warning message for code 7, taken from the repository test suite. -/
def warnMessage7 : String :=
  "These models were enriched with `@@map` information taken from the previous Prisma schema."

/-- Warning message for code 8, taken from the repository test suite. -/
def warnMessage8 : String :=
  "These fields were enriched with `@map` information taken from the previous Prisma schema."

/-- Warning message for code 9, taken from the repository test suite. -/
def warnMessage9 : String :=
  "These enums were enriched with `@@map` information taken from the previous Prisma schema."

/-- Warning message for code 10, taken from the repository test suite. -/
def warnMessage10 : String :=
  "These enum values were enriched with `@map` information taken from the previous Prisma schema."

/-- Modelled from the spec: the affected sequence for code 7, one model
record per model matched through the mapped-name pass, in processing
order (section 4.3). -/
def affectedModels (tables : List Table) (prevs : List Model) : List Affected :=
  (prevs.filter (mappedKept Table.name tables prevs)).map (fun p => Affected.model p.name)

/-- Modelled from the spec: the affected sequence for code 8, one record
per field matched through the mapped-name pass inside a kept model, in
processing order (section 4.3). -/
def affectedFields (tables : List Table) (prevs : List Model) : List Affected :=
  (prevs.filterMap (fun p =>
    (matchedOf Table.name tables prevs p).map (fun t =>
      (p.fields.filter (mappedKept Column.name t.columns p.fields)).map
        (fun f => Affected.field p.name f.name)))).flatten

/-- Modelled from the spec: the affected sequence for code 9, one enum
record per enum matched through the mapped-name pass (section 4.3). -/
def affectedEnums (enums : List CatEnum) (prevs : List PrismaEnum) : List Affected :=
  (prevs.filter (mappedKept CatEnum.name enums prevs)).map (fun p => Affected.enm p.name)

/-- Modelled from the spec: the affected sequence for code 10, one record
per enum value matched through the mapped-name pass inside a kept enum
(section 4.3). -/
def affectedEnumValues (enums : List CatEnum) (prevs : List PrismaEnum) : List Affected :=
  (prevs.filterMap (fun p =>
    (matchedOf CatEnum.name enums prevs p).map (fun e =>
      (p.values.filter (mappedKept (fun v => v) e.values p.values)).map
        (fun v => Affected.enumValue p.name v.name)))).flatten

/-- Modelled from the spec: the warning collector emits exactly one entry
per code, omitted entirely when the code has no occurrences (sections
4.3 and 4.6). -/
def mkWarning (code : Nat) (message : String) (aff : List Affected) : List Warning :=
  if aff.isEmpty then [] else [⟨code, message, aff⟩]

/-- Modelled from the spec: the full warning list of one reconciliation,
grouped by code in the fixed taxonomy 7, 8, 9, 10 (section 6). -/
def reconcileWarnings (s : CatalogSchema) (d : Datamodel) : List Warning :=
  mkWarning 7 warnMessage7 (affectedModels s.tables d.models) ++
    mkWarning 8 warnMessage8 (affectedFields s.tables d.models) ++
      mkWarning 9 warnMessage9 (affectedEnums s.enums d.enums) ++
        mkWarning 10 warnMessage10 (affectedEnumValues s.enums d.enums)

/-- Modelled from the spec: the schema assembler, a pure function from
catalog schema and previous AST to the merged AST and the warning list
(section 4.7). Missing source: the introspection engine assembler. -/
def reconcile (s : CatalogSchema) (d : Datamodel) : Datamodel × List Warning :=
  (⟨reconcileModels s.tables d.models, reconcileEnums s.enums d.enums⟩,
    reconcileWarnings s d)

/-- Modelled from the spec: validity of a raw catalog value as a schema
identifier; values such as "@" or "-" are not valid identifiers
(section 4.2). -/
def validIdentChar (ch : Char) : Bool :=
  ch.isAlphanum || ch == Char.ofNat 95

/-- Modelled from the spec: a valid identifier is nonempty, starts with
a letter or underscore, and continues with letters, digits or
underscores (section 4.2). -/
def validIdent (s : String) : Bool :=
  match s.toList with
  | [] => false
  | ch :: rest => (ch.isAlpha || ch == Char.ofNat 95) && rest.all validIdentChar

/-- Modelled from the spec: referential actions of a foreign key
(section 3, catalog side). -/
inductive ReferentialAction where
  | cascade
  | restrict
  | noAction
  | setNull
  | setDefault
deriving DecidableEq

/-- Modelled from the spec: the SQL dialect flavours whose default
referential-action resolution differs (section 4.3); older MySQL
resolves a missing clause to restrict, the others to no action, as
asserted by the repository test suite. -/
inductive SqlDialect where
  | mysqlOld
  | mysql8
  | postgres
  | sqlite
  | mssql
deriving DecidableEq

/-- Modelled from the spec: dialect-specific default resolution of a
referential action; an explicit clause is taken as is, a missing clause
resolves to the dialect default (section 4.3). Missing source: the
sql-schema-describer default resolution. -/
def resolveReferentialAction (d : SqlDialect) (clause : Option ReferentialAction) :
    ReferentialAction :=
  match clause with
  | some a => a
  | none =>
    match d with
    | SqlDialect.mysqlOld => ReferentialAction.restrict
    | _ => ReferentialAction.noAction

/-- Modelled from the spec: a live foreign-key constraint as reported by
introspection; a clause of none means the constraint carries no
explicit ON DELETE or ON UPDATE clause (section 6, input A). -/
structure CatForeignKey where
  columns : List String
  referencedTable : String
  referencedColumns : List String
  onDeleteClause : Option ReferentialAction
  onUpdateClause : Option ReferentialAction
deriving DecidableEq

/-- Modelled from the spec: a relation field of the previous schema AST
(section 3, description side). -/
structure RelationField where
  name : String
  relationName : Option String
  fkFields : List String
  onDelete : ReferentialAction
  onUpdate : ReferentialAction
deriving DecidableEq

/-- Modelled from the spec: the relation resolver merges a previous
relation field with the live foreign-key constraint whose column set
identifies it; names carry over from the previous field, while the
referential actions are recomputed from the live constraint using the
dialect default resolution, discarding the previous values (sections
4.3 and 4.4). Missing source: the introspection engine relation
resolver. -/
def mergeRelationField (d : SqlDialect) (fk : CatForeignKey) (p : RelationField) :
    RelationField :=
  { name := p.name
    relationName := p.relationName
    fkFields := fk.columns
    onDelete := resolveReferentialAction d fk.onDeleteClause
    onUpdate := resolveReferentialAction d fk.onUpdateClause }

/-- Modelled from the spec: the shape of an implicit many-to-many
self-relation join table: an anonymous table with exactly two
unconstrained foreign-key columns, both referencing the same model
(section 4.4). -/
structure SelfJoinTable where
  referencedModel : String
  colA : String
  colB : String
deriving DecidableEq

/-- Modelled from the spec: resolution of the irreducibly ambiguous
implicit many-to-many self-relation (section 4.4). The previous custom
relation field names are discarded entirely and canonical stand-in
names, referenced model then underscore then join column, are
regenerated for the two list fields; the test suite lists the field
for column B first. Missing source: the introspection engine relation
resolver. -/
def selfRelationFieldNames (j : SelfJoinTable)
    (prevNames : Option (String × String)) : String × String :=
  match prevNames with
  | _ => (j.referencedModel ++ "_" ++ j.colB, j.referencedModel ++ "_" ++ j.colA)

/-- Recognizer for the model-level identifier record shape. -/
def Affected.isModelShape : Affected → Bool
  | Affected.model _ => true
  | _ => false

/-- Recognizer for the field-level identifier record shape. -/
def Affected.isFieldShape : Affected → Bool
  | Affected.field _ _ => true
  | _ => false

/-- Recognizer for the enum-level identifier record shape. -/
def Affected.isEnumShape : Affected → Bool
  | Affected.enm _ => true
  | _ => false

/-- Recognizer for the enum-value-level identifier record shape. -/
def Affected.isEnumValueShape : Affected → Bool
  | Affected.enumValue _ _ => true
  | _ => false

/-- An integer primary key column as created by the test migrations. -/
def exIdColumn : Column := ⟨"id", "int4", false, some "autoincrement"⟩

/-- The previous-schema field corresponding to exIdColumn. -/
def exIdField : ScalarField :=
  ⟨"id", none, "int4", false, some (DefaultValue.dbGenerated "autoincrement"), false, none, false⟩

/-- A one-column catalog table named n, as in the test migrations. -/
def exTable (n : String) : Table := ⟨n, [exIdColumn]⟩

/-- A one-field previous model named n, as in the test schemas. -/
def exModel (n : String) : Model := ⟨n, none, none, [exIdField], false⟩

/-- The catalog of the custom_model_order test: tables A, B, J, F, Z, M, L
exist; the introspection collaborator yields them in name order. -/
def exOrderCatalog : CatalogSchema :=
  ⟨(["A", "B", "F", "J", "L", "M", "Z"]).map exTable, []⟩

/-- The previous AST of the custom_model_order test. -/
def exOrderPrev : Datamodel :=
  ⟨(["B", "A", "F", "C", "J", "Z", "K"]).map exModel, []⟩

/-- The catalog of the mapped_model_name test. -/
def exMappedCatalog : CatalogSchema := ⟨[exTable "_User", exTable "Unrelated"], []⟩

/-- The previous AST of the mapped_model_name test: Custom_User mapped to
table _User. -/
def exMappedPrev : Datamodel :=
  ⟨[⟨"Custom_User", some "_User", none, [exIdField], false⟩], []⟩

/-- The catalog of the manually_re_mapped_invalid_enum_values test: an
enum type named invalid with the raw members at-sign and dash. -/
def exEnumCatalog : CatalogSchema := ⟨[], [⟨"invalid", ["@", "-"]⟩]⟩

/-- The previous AST of the manually_re_mapped_invalid_enum_values test. -/
def exEnumPrev : Datamodel :=
  ⟨[], [⟨"invalid", none, none, [⟨"at", some "@"⟩, ⟨"dash", some "-"⟩]⟩]⟩

/-- The catalog of the mapped_enum_name test on postgres. -/
def exMappedEnumCatalog : CatalogSchema := ⟨[], [⟨"color", ["black", "white"]⟩]⟩

/-- The previous AST of the mapped_enum_name test: enum BlackNWhite mapped
to the catalog enum color. -/
def exMappedEnumPrev : Datamodel :=
  ⟨[], [⟨"BlackNWhite", some "color", none, [⟨"black", none⟩, ⟨"white", none⟩]⟩]⟩

/-- The catalog of the virtual_cuid_default test: no catalog-visible
defaults on the varchar columns. -/
def exCuidCatalog : CatalogSchema :=
  ⟨[⟨"User", [⟨"id", "varchar(30)", false, none⟩, ⟨"non_id", "varchar(30)", false, none⟩]⟩,
    ⟨"User2", [⟨"id", "varchar(36)", false, none⟩]⟩,
    exTable "Unrelated"], []⟩

/-- The previous AST of the virtual_cuid_default test: client-side cuid
and uuid default generators on unchanged columns. -/
def exCuidPrev : Datamodel :=
  ⟨[⟨"User", none, none,
     [⟨"id", none, "varchar(30)", false, some (DefaultValue.clientGenerated "cuid"), false, none, false⟩,
      ⟨"non_id", none, "varchar(30)", false, some (DefaultValue.clientGenerated "cuid"), false, none, false⟩],
     false⟩,
    ⟨"User2", none, none,
     [⟨"id", none, "varchar(36)", false, some (DefaultValue.clientGenerated "uuid"), false, none, false⟩],
     false⟩], []⟩

end Reconcile

namespace QueryUtils

/-- A primitive prisma value, the payload of a record finder. -/
inductive PrismaValue where
  | string (s : String)
  | int (i : Int)
  | boolean (b : Bool)
  | null
deriving DecidableEq

/-- A parsed input value as consumed by the query builders: a single
primitive value, a map of named values, or a list of values. -/
inductive ParsedInputValue where
  | single (v : PrismaValue)
  | map (m : List (String × ParsedInputValue))
  | listVal (l : List ParsedInputValue)

/-- A parsed argument: a name together with a parsed input value. -/
structure ParsedArgument where
  name : String
  value : ParsedInputValue

/-- Modelled from the spec: conversion of a parsed input value into an
input map succeeds exactly on the map variant; missing source: the
TryInto instance for ParsedInputMap in the query-builders layer. -/
def tryIntoMap (v : ParsedInputValue) : Option (List (String × ParsedInputValue)) :=
  match v with
  | ParsedInputValue.map m => some m
  | _ => none

/-- Modelled from the spec: conversion of a parsed input value into a
primitive record-finder value succeeds exactly on the single variant;
missing source: the TryInto instance for PrismaValue in the
query-builders layer. -/
def tryIntoPrismaValue (v : ParsedInputValue) : Option PrismaValue :=
  match v with
  | ParsedInputValue.single pv => some pv
  | _ => none

/-- A model as seen by the extraction helper: the names of its scalar
fields. -/
structure ModelStub where
  scalarFields : List String
deriving DecidableEq

/-- Modelled from the spec: lookup of a scalar field of the model by
name; missing source: the prisma-models field collection. -/
def findFromScalar (m : ModelStub) (fieldName : String) : Option String :=
  m.scalarFields.find? (fun f => decide (f = fieldName))

/-- A record finder: one scalar field of a model paired with the value
the record must carry in it. -/
structure RecordFinder where
  field : String
  value : PrismaValue
deriving DecidableEq

/-- Outcome of running extract_record_finder: a record finder, an
assertion error carried in the Err channel, or a panic raised by one of
the internal unwrap calls. -/
inductive ExtractResult where
  | ok (rf : RecordFinder)
  | assertionError (msg : String)
  | panicked
deriving DecidableEq

/-- Translation of extract_record_finder from
query-engine/core/src/query_builders/utils.rs. The first argument named
where is looked up and unwrapped, its value is converted to an input
map and unwrapped; a map with a number of entries different from one
yields an assertion error in the Err channel; otherwise the single
entry is taken, its key is resolved to a scalar field of the model and
unwrapped, and its value is converted to a primitive value and
unwrapped. Every unwrap on an empty option is a panic. -/
def extract_record_finder (arguments : List ParsedArgument) (model : ModelStub) :
    ExtractResult :=
  match arguments.find? (fun arg => decide (arg.name = "where")) with
  | none => ExtractResult.panicked
  | some whereArg =>
    match tryIntoMap whereArg.value with
    | none => ExtractResult.panicked
    | some values =>
      if values.length ≠ 1 then
        ExtractResult.assertionError
          ("Expected exactly one value for where argument, got: " ++
            String.intercalate ", " (values.map (fun v => v.1)))
      else
        match values with
        | [] => ExtractResult.panicked
        | (k, v) :: _ =>
          match findFromScalar model k with
          | none => ExtractResult.panicked
          | some f =>
            match tryIntoPrismaValue v with
            | none => ExtractResult.panicked
            | some pv => ExtractResult.ok ⟨f, pv⟩

/-- The precondition under which extract_record_finder performs no
panicking unwrap: the argument list contains an argument named where,
the value of the first such argument converts to an input map, and,
when that map has exactly one entry, the key of that entry names a
scalar field of the model and its value converts to a primitive
record-finder value. -/
def rfPrecondition (arguments : List ParsedArgument) (model : ModelStub) : Prop :=
  ∃ whereArg m,
    arguments.find? (fun arg => decide (arg.name = "where")) = some whereArg ∧
    tryIntoMap whereArg.value = some m ∧
    ∀ k v, m = [(k, v)] →
      (∃ f, findFromScalar model k = some f) ∧ ∃ pv, tryIntoPrismaValue v = some pv

end QueryUtils

namespace Reconcile

open Matchable

theorem list_find?_unique {α : Type} {p : α → Bool} {l : List α} {a : α}
    (ha : a ∈ l) (h : ∀ x ∈ l, p x = true ↔ x = a) : l.find? p = some a := by
  induction l with
  | nil => cases ha
  | cons x xs ih =>
    by_cases hx : p x = true
    · have hxa := (h x (List.mem_cons_self x xs)).mp hx
      subst hxa
      exact List.find?_cons_of_pos _ hx
    · have hxa : ¬(x = a) := fun e => hx ((h x (List.mem_cons_self x xs)).mpr e)
      have ha2 : a ∈ xs := by
        rcases List.mem_cons.mp ha with h1 | h1
        · exact absurd h1.symm hxa
        · exact h1
      rw [List.find?_cons_of_neg _ hx]
      exact ih ha2 (fun y hy => h y (List.mem_cons_of_mem _ hy))

theorem list_find?_congr {α : Type} {p q : α → Bool} {l : List α}
    (h : ∀ x ∈ l, p x = q x) : l.find? p = l.find? q := by
  induction l with
  | nil => rfl
  | cons x xs ih =>
    have hx := h x (List.mem_cons_self x xs)
    by_cases hpx : p x = true
    · rw [List.find?_cons_of_pos _ hpx, List.find?_cons_of_pos _ (hx ▸ hpx)]
    · rw [List.find?_cons_of_neg _ hpx, List.find?_cons_of_neg _ (by rw [← hx]; exact hpx)]
      exact ih (fun y hy => h y (List.mem_cons_of_mem _ hy))

theorem list_filterMap_eq_self {α : Type} {g : α → Option α} {l : List α}
    (h : ∀ x ∈ l, g x = some x) : l.filterMap g = l := by
  induction l with
  | nil => rfl
  | cons x xs ih =>
    rw [List.filterMap_cons_some (h x (List.mem_cons_self x xs)),
      ih (fun y hy => h y (List.mem_cons_of_mem _ hy))]

theorem list_filterMap_map_of_name {α : Type} (f : α → String) (g : α → Option α)
    (l : List α) (h : ∀ x ∈ l, ∀ y, g x = some y → f y = f x) :
    (l.filterMap g).map f = (l.filter (fun x => (g x).isSome)).map f := by
  induction l with
  | nil => rfl
  | cons x xs ih =>
    have htail := ih (fun y hy => h y (List.mem_cons_of_mem _ hy))
    cases hg : g x with
    | none =>
      rw [List.filterMap_cons_none hg, List.filter_cons_of_neg (by simp [hg]), htail]
    | some y =>
      rw [List.filterMap_cons_some hg, List.filter_cons_of_pos (by simp [hg]),
        List.map_cons, List.map_cons, htail, h x (List.mem_cons_self x xs) y hg]

theorem findMatch_eq_some_elim {α : Type} [Matchable α] {prevs : List α}
    {catNames : List String} {c : String} {p : α}
    (h : findMatch prevs catNames c = some p) :
    p ∈ prevs ∧
      (entityName p = c ∨ (entityMapped p = some c ∧ entityName p ∉ catNames)) := by
  unfold findMatch at h
  cases hf : prevs.find? (fun q => decide (entityName q = c)) with
  | some q =>
    rw [hf] at h
    cases h
    refine ⟨List.mem_of_find?_eq_some hf, Or.inl ?_⟩
    have := List.find?_some hf
    simpa using this
  | none =>
    rw [hf] at h
    refine ⟨List.mem_of_find?_eq_some h, Or.inr ?_⟩
    have := List.find?_some h
    simpa using this

theorem findMatch_eq_none_iff {α : Type} [Matchable α] {prevs : List α}
    {catNames : List String} {c : String} :
    findMatch prevs catNames c = none ↔
      ∀ p ∈ prevs, ¬(entityName p = c) ∧
        ¬(entityMapped p = some c ∧ entityName p ∉ catNames) := by
  unfold findMatch
  constructor
  · intro h p hp
    cases hf : prevs.find? (fun q => decide (entityName q = c)) with
    | some q => rw [hf] at h; cases h
    | none =>
      rw [hf] at h
      have h1 := List.find?_eq_none.mp hf p hp
      have h2 := List.find?_eq_none.mp h p hp
      constructor
      · simpa using h1
      · simpa using h2
  · intro h
    have hf : prevs.find? (fun q => decide (entityName q = c)) = none :=
      List.find?_eq_none.mpr (fun p hp => by simpa using (h p hp).1)
    rw [hf]
    exact List.find?_eq_none.mpr (fun p hp => by simpa using (h p hp).2)

end Reconcile

namespace Reconcile

open Matchable

theorem findMatch_of_pass1 {α : Type} [Matchable α] {prevs : List α}
    {catNames : List String} {c : String} {p : α}
    (h : prevs.find? (fun q => decide (entityName q = c)) = some p) :
    findMatch prevs catNames c = some p := by
  unfold findMatch
  rw [h]

theorem findMatch_of_pass2 {α : Type} [Matchable α] {prevs : List α}
    {catNames : List String} {c : String} {p : α}
    (h1 : prevs.find? (fun q => decide (entityName q = c)) = none)
    (h2 : prevs.find?
      (fun q => decide (entityMapped q = some c ∧ entityName q ∉ catNames)) = some p) :
    findMatch prevs catNames c = some p := by
  unfold findMatch
  rw [h1, h2]

theorem matchedOf_eq_some {α β : Type} [Matchable α] [DecidableEq α]
    {catName : β → String} {cats : List β} {prevs : List α} {c : β} {p : α}
    (hN : (cats.map catName).Nodup) (hc : c ∈ cats)
    (hm : findMatch prevs (cats.map catName) (catName c) = some p) :
    matchedOf catName cats prevs p = some c := by
  unfold matchedOf
  apply list_find?_unique hc
  intro x hx
  simp only [decide_eq_true_eq]
  constructor
  · intro hfx
    obtain ⟨hpmem, hcase⟩ := findMatch_eq_some_elim hfx
    obtain ⟨hpmem2, hcase2⟩ := findMatch_eq_some_elim hm
    rcases hcase with h1 | ⟨h1, h2⟩
    · rcases hcase2 with h3 | ⟨h3, h4⟩
      · exact List.inj_on_of_nodup_map hN hx hc (h1.symm.trans h3)
      · exact absurd (by rw [h1]; exact List.mem_map_of_mem catName hx) h4
    · rcases hcase2 with h3 | ⟨h3, h4⟩
      · exact absurd (by rw [h3]; exact List.mem_map_of_mem catName hc) h2
      · exact List.inj_on_of_nodup_map hN hx hc
          (Option.some.inj (h1.symm.trans h3))
  · intro he
    subst he
    exact hm

theorem mem_reconcileList_elim {α β : Type} [Matchable α] [DecidableEq α]
    {catName : β → String} {merge : β → α → α} {fresh : β → α}
    {cats : List β} {prevs : List α} {o : α}
    (ho : o ∈ reconcileList catName merge fresh cats prevs) :
    (∃ p, p ∈ prevs ∧ ∃ c, c ∈ cats ∧
      findMatch prevs (cats.map catName) (catName c) = some p ∧ o = merge c p) ∨
    (∃ c, c ∈ cats ∧
      findMatch prevs (cats.map catName) (catName c) = none ∧ o = fresh c) := by
  unfold reconcileList at ho
  rcases List.mem_append.mp ho with h | h
  · left
    obtain ⟨p, hp, hmap⟩ := List.mem_filterMap.mp h
    cases hmo : matchedOf catName cats prevs p with
    | none =>
      rw [hmo] at hmap
      cases hmap
    | some c =>
      rw [hmo] at hmap
      have hoc : merge c p = o := by simpa using hmap
      unfold matchedOf at hmo
      have hcmem := List.mem_of_find?_eq_some hmo
      have hcp := List.find?_some hmo
      simp only [decide_eq_true_eq] at hcp
      exact ⟨p, hp, c, hcmem, hcp, hoc.symm⟩
  · right
    obtain ⟨c, hcmem, hco⟩ := List.mem_map.mp h
    have hcf := List.mem_filter.mp hcmem
    refine ⟨c, hcf.1, ?_, hco.symm⟩
    simpa using hcf.2

theorem merge_mem_reconcileList {α β : Type} [Matchable α] [DecidableEq α]
    {catName : β → String} (merge : β → α → α) (fresh : β → α)
    {cats : List β} {prevs : List α} {c : β} {p : α}
    (hN : (cats.map catName).Nodup) (hc : c ∈ cats)
    (hm : findMatch prevs (cats.map catName) (catName c) = some p) :
    merge c p ∈ reconcileList catName merge fresh cats prevs := by
  unfold reconcileList
  apply List.mem_append_left
  refine List.mem_filterMap.mpr ⟨p, (findMatch_eq_some_elim hm).1, ?_⟩
  rw [matchedOf_eq_some hN hc hm]
  rfl

theorem fresh_mem_reconcileList {α β : Type} [Matchable α] [DecidableEq α]
    {catName : β → String} (merge : β → α → α) (fresh : β → α)
    {cats : List β} {prevs : List α} {c : β}
    (hc : c ∈ cats)
    (hm : findMatch prevs (cats.map catName) (catName c) = none) :
    fresh c ∈ reconcileList catName merge fresh cats prevs := by
  unfold reconcileList
  apply List.mem_append_right
  apply List.mem_map_of_mem
  exact List.mem_filter.mpr ⟨hc, by simp [hm]⟩

theorem findMatch_reconcileList {α β : Type} [Matchable α] [DecidableEq α]
    {catName : β → String} {merge : β → α → α} {fresh : β → α}
    {cats : List β} {prevs : List α}
    (hN : (cats.map catName).Nodup)
    (hmergeName : ∀ c ∈ cats, ∀ p, entityName (merge c p) = entityName p)
    (hmergeMapped : ∀ c ∈ cats, ∀ p, entityMapped (merge c p) = entityMapped p)
    (hfreshName : ∀ c ∈ cats, entityName (fresh c) = catName c)
    (hfreshMapped : ∀ c ∈ cats, entityMapped (fresh c) = none)
    {c : β} (hc : c ∈ cats) :
    findMatch (reconcileList catName merge fresh cats prevs) (cats.map catName) (catName c)
      = some ((findMatch prevs (cats.map catName) (catName c)).elim
          (fresh c) (fun p => merge c p)) := by
  cases hm : findMatch prevs (cats.map catName) (catName c) with
  | some p =>
    simp only [Option.elim]
    obtain ⟨hpmem, hcase⟩ := findMatch_eq_some_elim hm
    rcases hcase with hx | ⟨hmapped, hnotin⟩
    · apply findMatch_of_pass1
      apply list_find?_unique (merge_mem_reconcileList merge fresh hN hc hm)
      intro x hxO
      simp only [decide_eq_true_eq]
      constructor
      · intro hname
        rcases mem_reconcileList_elim hxO with
          ⟨q, hq, cq, hcq, hfcq, hxe⟩ | ⟨cq, hcq, hfcq, hxe⟩
        · subst hxe
          rw [hmergeName cq hcq q] at hname
          obtain ⟨hqmem, hqcase⟩ := findMatch_eq_some_elim hfcq
          rcases hqcase with hq1 | ⟨hq1, hq2⟩
          · have hcc : cq = c :=
              List.inj_on_of_nodup_map hN hcq hc (hq1.symm.trans hname)
            subst hcc
            have hqp : q = p := by
              rw [hfcq] at hm
              exact Option.some.inj hm
            subst hqp
            rfl
          · exact absurd (by rw [hname]; exact List.mem_map_of_mem catName hc) hq2
        · subst hxe
          rw [hfreshName cq hcq] at hname
          have hcc : cq = c := List.inj_on_of_nodup_map hN hcq hc hname
          subst hcc
          rw [hm] at hfcq
          cases hfcq
      · intro hxe
        subst hxe
        rw [hmergeName c hc p]
        exact hx
    · apply findMatch_of_pass2
      · apply List.find?_eq_none.mpr
        intro x hxO
        simp only [decide_eq_true_eq]
        intro hname
        rcases mem_reconcileList_elim hxO with
          ⟨q, hq, cq, hcq, hfcq, hxe⟩ | ⟨cq, hcq, hfcq, hxe⟩
        · subst hxe
          rw [hmergeName cq hcq q] at hname
          obtain ⟨hqmem, hqcase⟩ := findMatch_eq_some_elim hfcq
          rcases hqcase with hq1 | ⟨hq1, hq2⟩
          · have hcc : cq = c :=
              List.inj_on_of_nodup_map hN hcq hc (hq1.symm.trans hname)
            subst hcc
            have hqp : q = p := by
              rw [hfcq] at hm
              exact Option.some.inj hm
            subst hqp
            exact absurd (by rw [hq1]; exact List.mem_map_of_mem catName hc) hnotin
          · exact absurd (by rw [hname]; exact List.mem_map_of_mem catName hc) hq2
        · subst hxe
          rw [hfreshName cq hcq] at hname
          have hcc : cq = c := List.inj_on_of_nodup_map hN hcq hc hname
          subst hcc
          rw [hm] at hfcq
          cases hfcq
      · apply list_find?_unique (merge_mem_reconcileList merge fresh hN hc hm)
        intro x hxO
        simp only [decide_eq_true_eq]
        constructor
        · rintro ⟨hxm, hxn⟩
          rcases mem_reconcileList_elim hxO with
            ⟨q, hq, cq, hcq, hfcq, hxe⟩ | ⟨cq, hcq, hfcq, hxe⟩
          · subst hxe
            rw [hmergeMapped cq hcq q] at hxm
            rw [hmergeName cq hcq q] at hxn
            obtain ⟨hqmem, hqcase⟩ := findMatch_eq_some_elim hfcq
            rcases hqcase with hq1 | ⟨hq1, hq2⟩
            · exact absurd (by rw [hq1]; exact List.mem_map_of_mem catName hcq) hxn
            · have hcc : cq = c :=
                List.inj_on_of_nodup_map hN hcq hc (Option.some.inj (hq1.symm.trans hxm))
              subst hcc
              have hqp : q = p := by
                rw [hfcq] at hm
                exact Option.some.inj hm
              subst hqp
              rfl
          · subst hxe
            rw [hfreshMapped cq hcq] at hxm
            cases hxm
        · intro hxe
          subst hxe
          refine ⟨?_, ?_⟩
          · rw [hmergeMapped c hc p]
            exact hmapped
          · rw [hmergeName c hc p]
            exact hnotin
  | none =>
    simp only [Option.elim]
    apply findMatch_of_pass1
    apply list_find?_unique (fresh_mem_reconcileList merge fresh hc hm)
    intro x hxO
    simp only [decide_eq_true_eq]
    constructor
    · intro hname
      rcases mem_reconcileList_elim hxO with
        ⟨q, hq, cq, hcq, hfcq, hxe⟩ | ⟨cq, hcq, hfcq, hxe⟩
      · subst hxe
        rw [hmergeName cq hcq q] at hname
        obtain ⟨hqmem, hqcase⟩ := findMatch_eq_some_elim hfcq
        rcases hqcase with hq1 | ⟨hq1, hq2⟩
        · have hcc : cq = c :=
            List.inj_on_of_nodup_map hN hcq hc (hq1.symm.trans hname)
          subst hcc
          rw [hm] at hfcq
          cases hfcq
        · exact absurd (by rw [hname]; exact List.mem_map_of_mem catName hc) hq2
      · subst hxe
        rw [hfreshName cq hcq] at hname
        have hcc : cq = c := List.inj_on_of_nodup_map hN hcq hc hname
        subst hcc
        rfl
    · intro hxe
      subst hxe
      exact hfreshName c hc

end Reconcile

namespace Reconcile

open Matchable

theorem reconcileList_idem {α β : Type} [Matchable α] [DecidableEq α]
    {catName : β → String} {merge : β → α → α} {fresh : β → α} {cats : List β}
    (hN : (cats.map catName).Nodup)
    (hmergeName : ∀ c ∈ cats, ∀ p, entityName (merge c p) = entityName p)
    (hmergeMapped : ∀ c ∈ cats, ∀ p, entityMapped (merge c p) = entityMapped p)
    (hfreshName : ∀ c ∈ cats, entityName (fresh c) = catName c)
    (hfreshMapped : ∀ c ∈ cats, entityMapped (fresh c) = none)
    (hmergeIdem : ∀ c ∈ cats, ∀ p, merge c (merge c p) = merge c p)
    (hmergeFresh : ∀ c ∈ cats, merge c (fresh c) = fresh c)
    (prevs : List α) :
    reconcileList catName merge fresh cats (reconcileList catName merge fresh cats prevs)
      = reconcileList catName merge fresh cats prevs := by
  set O := reconcileList catName merge fresh cats prevs with hO
  have hall : ∀ c ∈ cats,
      findMatch O (cats.map catName) (catName c)
        = some ((findMatch prevs (cats.map catName) (catName c)).elim
            (fresh c) (fun p => merge c p)) :=
    fun c hc =>
      findMatch_reconcileList hN hmergeName hmergeMapped hfreshName hfreshMapped hc
  have hfilter :
      cats.filter (fun c => decide (findMatch O (cats.map catName) (catName c) = none))
        = [] := by
    apply List.filter_eq_nil_iff.mpr
    intro c hc
    rw [hall c hc]
    simp
  have hkeep : ∀ o ∈ O, (matchedOf catName cats O o).map (fun c => merge c o) = some o := by
    intro o ho
    have hcongr : matchedOf catName cats O o
        = cats.find? (fun c =>
            decide ((findMatch prevs (cats.map catName) (catName c)).elim
              (fresh c) (fun p => merge c p) = o)) := by
      unfold matchedOf
      apply list_find?_congr
      intro c hc
      rw [hall c hc]
      simp
    have hex : ∃ c, c ∈ cats ∧
        decide ((findMatch prevs (cats.map catName) (catName c)).elim
          (fresh c) (fun p => merge c p) = o) = true := by
      rcases mem_reconcileList_elim ho with
        ⟨p, hp, c, hc, hfc, he⟩ | ⟨c, hc, hfc, he⟩
      · exact ⟨c, hc, by rw [hfc]; simp [he]⟩
      · exact ⟨c, hc, by rw [hfc]; simp [he]⟩
    obtain ⟨c1, hfind⟩ : ∃ c1, cats.find? (fun c =>
        decide ((findMatch prevs (cats.map catName) (catName c)).elim
          (fresh c) (fun p => merge c p) = o)) = some c1 :=
      Option.isSome_iff_exists.mp (List.find?_isSome.mpr hex)
    rw [hcongr, hfind]
    have hc1 := List.mem_of_find?_eq_some hfind
    have hp1 := List.find?_some hfind
    simp only [decide_eq_true_eq] at hp1
    show some (merge c1 o) = some o
    refine congrArg some ?_
    cases hfc : findMatch prevs (cats.map catName) (catName c1) with
    | some p =>
      rw [hfc] at hp1
      simp only [Option.elim] at hp1
      rw [← hp1]
      exact hmergeIdem c1 hc1 p
    | none =>
      rw [hfc] at hp1
      simp only [Option.elim] at hp1
      rw [← hp1]
      exact hmergeFresh c1 hc1
  conv_lhs => unfold reconcileList
  rw [hfilter]
  simp only [List.map_nil, List.append_nil]
  exact list_filterMap_eq_self hkeep

end Reconcile

namespace Reconcile

open Matchable

theorem mergeField_idem (c : Column) (p : ScalarField) :
    mergeField c (mergeField c p) = mergeField c p := by
  rcases c with ⟨cn, ct, cnull, cnd⟩
  rcases p with ⟨pn, pm, pt, po, pd, pu, pdoc, pi⟩
  cases cnd with
  | some d => rfl
  | none =>
    by_cases h : pt = ct ∧ po = cnull
    · rcases h with ⟨h1, h2⟩
      subst h1
      subst h2
      cases pd with
      | none => simp [mergeField]
      | some dv =>
        cases dv with
        | dbGenerated v => simp [mergeField]
        | clientGenerated g => simp [mergeField]
    · simp [mergeField, h]

theorem mergeField_newField (c : Column) : mergeField c (newField c) = newField c := by
  rcases c with ⟨cn, ct, cnull, cnd⟩
  cases cnd with
  | some d => rfl
  | none => simp [mergeField, newField]

theorem reconcileList_nil {α β : Type} [Matchable α] [DecidableEq α]
    (catName : β → String) (merge : β → α → α) (fresh : β → α) (cats : List β) :
    reconcileList catName merge fresh cats ([] : List α) = cats.map fresh := by
  unfold reconcileList
  have h1 : ∀ c ∈ cats, findMatch ([] : List α) (cats.map catName) (catName c) = none := by
    intro c _
    rfl
  rw [List.filterMap_nil, List.nil_append]
  have h2 : cats.filter
      (fun c => decide (findMatch ([] : List α) (cats.map catName) (catName c) = none))
        = cats := by
    apply List.filter_eq_self.mpr
    intro c hc
    simp [h1 c hc]
  rw [h2]

theorem reconcileFields_idem (cols : List Column) (prevs : List ScalarField)
    (hN : (cols.map Column.name).Nodup) :
    reconcileFields cols (reconcileFields cols prevs) = reconcileFields cols prevs := by
  have hmn : ∀ c ∈ cols, ∀ p, entityName (mergeField c p) = entityName p :=
    fun _ _ _ => rfl
  have hmm : ∀ c ∈ cols, ∀ p, entityMapped (mergeField c p) = entityMapped p :=
    fun _ _ _ => rfl
  have hfn : ∀ c ∈ cols, entityName (newField c) = Column.name c := fun _ _ => rfl
  have hfm : ∀ c ∈ cols, entityMapped (newField c) = none := fun _ _ => rfl
  have hmi : ∀ c ∈ cols, ∀ p, mergeField c (mergeField c p) = mergeField c p :=
    fun c _ p => mergeField_idem c p
  have hmf : ∀ c ∈ cols, mergeField c (newField c) = newField c :=
    fun c _ => mergeField_newField c
  unfold reconcileFields
  exact reconcileList_idem hN hmn hmm hfn hfm hmi hmf prevs

theorem reconcileFields_nil (cols : List Column) :
    reconcileFields cols [] = cols.map newField :=
  reconcileList_nil Column.name mergeField newField cols

theorem mergeModel_idem (t : Table) (p : Model)
    (hC : (t.columns.map Column.name).Nodup) :
    mergeModel t (mergeModel t p) = mergeModel t p := by
  show Model.mk p.name p.mappedName p.doc
      (reconcileFields t.columns (reconcileFields t.columns p.fields)) p.ignored
    = Model.mk p.name p.mappedName p.doc (reconcileFields t.columns p.fields) p.ignored
  rw [reconcileFields_idem t.columns p.fields hC]

theorem mergeModel_newModel (t : Table)
    (hC : (t.columns.map Column.name).Nodup) :
    mergeModel t (newModel t) = newModel t := by
  show Model.mk t.name none none
      (reconcileFields t.columns (t.columns.map newField)) false
    = Model.mk t.name none none (t.columns.map newField) false
  rw [← reconcileFields_nil t.columns, reconcileFields_idem t.columns [] hC]

theorem reconcileValues_idem (raws : List String) (prevs : List EnumValue)
    (hN : raws.Nodup) :
    reconcileValues raws (reconcileValues raws prevs) = reconcileValues raws prevs := by
  have hmn : ∀ c ∈ raws, ∀ p, entityName (mergeEnumValue c p) = entityName p :=
    fun _ _ _ => rfl
  have hmm : ∀ c ∈ raws, ∀ p, entityMapped (mergeEnumValue c p) = entityMapped p :=
    fun _ _ _ => rfl
  have hfn : ∀ c ∈ raws, entityName (newEnumValue c) = c := fun _ _ => rfl
  have hfm : ∀ c ∈ raws, entityMapped (newEnumValue c) = none := fun _ _ => rfl
  have hmi : ∀ c ∈ raws, ∀ p, mergeEnumValue c (mergeEnumValue c p) = mergeEnumValue c p :=
    fun _ _ _ => rfl
  have hmf : ∀ c ∈ raws, mergeEnumValue c (newEnumValue c) = newEnumValue c :=
    fun _ _ => rfl
  unfold reconcileValues
  refine reconcileList_idem ?_ hmn hmm hfn hfm hmi hmf prevs
  simpa using hN

theorem reconcileValues_nil (raws : List String) :
    reconcileValues raws [] = raws.map newEnumValue :=
  reconcileList_nil (fun v => v) mergeEnumValue newEnumValue raws

theorem mergeEnum_idem (e : CatEnum) (p : PrismaEnum) (hV : e.values.Nodup) :
    mergeEnum e (mergeEnum e p) = mergeEnum e p := by
  show PrismaEnum.mk p.name p.mappedName p.doc
      (reconcileValues e.values (reconcileValues e.values p.values))
    = PrismaEnum.mk p.name p.mappedName p.doc (reconcileValues e.values p.values)
  rw [reconcileValues_idem e.values p.values hV]

theorem mergeEnum_newEnum (e : CatEnum) (hV : e.values.Nodup) :
    mergeEnum e (newEnum e) = newEnum e := by
  show PrismaEnum.mk e.name none none
      (reconcileValues e.values (e.values.map newEnumValue))
    = PrismaEnum.mk e.name none none (e.values.map newEnumValue)
  rw [← reconcileValues_nil e.values, reconcileValues_idem e.values [] hV]

/-- C1 (amended): reconciling the merged AST produced by reconcile
against the same catalog schema again yields an AST identical to that
merged AST, for every catalog schema with duplicate-free table, column,
enum and enum-member names. The accompanying warning list of the second
run is not empty in general: it re-reports the mapping enrichments
still present in the merged AST. -/
theorem reconcile_ast_idempotent (s : CatalogSchema) (d : Datamodel)
    (hT : (s.tables.map Table.name).Nodup)
    (hE : (s.enums.map CatEnum.name).Nodup)
    (hC : ∀ t ∈ s.tables, (t.columns.map Column.name).Nodup)
    (hV : ∀ e ∈ s.enums, e.values.Nodup) :
    (reconcile s ((reconcile s d).1)).1 = (reconcile s d).1 := by
  have hm : reconcileModels s.tables (reconcileModels s.tables d.models)
      = reconcileModels s.tables d.models := by
    have hmn : ∀ t ∈ s.tables, ∀ p, entityName (mergeModel t p) = entityName p :=
      fun _ _ _ => rfl
    have hmm : ∀ t ∈ s.tables, ∀ p, entityMapped (mergeModel t p) = entityMapped p :=
      fun _ _ _ => rfl
    have hfn : ∀ t ∈ s.tables, entityName (newModel t) = Table.name t := fun _ _ => rfl
    have hfm : ∀ t ∈ s.tables, entityMapped (newModel t) = none := fun _ _ => rfl
    have hmi : ∀ t ∈ s.tables, ∀ p, mergeModel t (mergeModel t p) = mergeModel t p :=
      fun t ht p => mergeModel_idem t p (hC t ht)
    have hmf : ∀ t ∈ s.tables, mergeModel t (newModel t) = newModel t :=
      fun t ht => mergeModel_newModel t (hC t ht)
    unfold reconcileModels
    exact reconcileList_idem hT hmn hmm hfn hfm hmi hmf d.models
  have he : reconcileEnums s.enums (reconcileEnums s.enums d.enums)
      = reconcileEnums s.enums d.enums := by
    have hmn : ∀ e ∈ s.enums, ∀ p, entityName (mergeEnum e p) = entityName p :=
      fun _ _ _ => rfl
    have hmm : ∀ e ∈ s.enums, ∀ p, entityMapped (mergeEnum e p) = entityMapped p :=
      fun _ _ _ => rfl
    have hfn : ∀ e ∈ s.enums, entityName (newEnum e) = CatEnum.name e := fun _ _ => rfl
    have hfm : ∀ e ∈ s.enums, entityMapped (newEnum e) = none := fun _ _ => rfl
    have hmi : ∀ e ∈ s.enums, ∀ p, mergeEnum e (mergeEnum e p) = mergeEnum e p :=
      fun e heIn p => mergeEnum_idem e p (hV e heIn)
    have hmf : ∀ e ∈ s.enums, mergeEnum e (newEnum e) = newEnum e :=
      fun e heIn => mergeEnum_newEnum e (hV e heIn)
    unfold reconcileEnums
    exact reconcileList_idem hE hmn hmm hfn hfm hmi hmf d.enums
  have h1 : (reconcile s d).1
      = ⟨reconcileModels s.tables d.models, reconcileEnums s.enums d.enums⟩ := rfl
  have h2 : (reconcile s (⟨reconcileModels s.tables d.models,
        reconcileEnums s.enums d.enums⟩ : Datamodel)).1
      = ⟨reconcileModels s.tables (reconcileModels s.tables d.models),
          reconcileEnums s.enums (reconcileEnums s.enums d.enums)⟩ := rfl
  rw [h1, h2, hm, he]

/-- Witness for C1 (amended), at the input of the mapped_model_name
test. -/
theorem reconcile_ast_idempotent_witness :
    (reconcile exMappedCatalog ((reconcile exMappedCatalog exMappedPrev).1)).1
      = (reconcile exMappedCatalog exMappedPrev).1 :=
  reconcile_ast_idempotent exMappedCatalog exMappedPrev (by decide) (by decide)
    (by decide) (by decide)

/-- Counterexample to C1 as stated: at the input of the mapped_model_name
test, re-reconciling the merged AST against the same catalog yields a
warning list that is not empty (it repeats the code 7 mapping
enrichment), contradicting the claimed empty warning list. -/
theorem reconcile_rerun_warnings_nonempty :
    (reconcile exMappedCatalog ((reconcile exMappedCatalog exMappedPrev).1)).2 ≠ [] := by
  decide

end Reconcile

namespace Reconcile

open Matchable

theorem reconcileList_map_name {α β : Type} [Matchable α] [DecidableEq α]
    (catName : β → String) (merge : β → α → α) (fresh : β → α)
    (cats : List β) (prevs : List α)
    (hmergeName : ∀ c ∈ cats, ∀ p, entityName (merge c p) = entityName p)
    (hfreshName : ∀ c ∈ cats, entityName (fresh c) = catName c) :
    (reconcileList catName merge fresh cats prevs).map entityName
      = (prevs.filter (keptPrev catName cats prevs)).map entityName
        ++ (cats.filter (fun c =>
            decide (findMatch prevs (cats.map catName) (catName c) = none))).map catName := by
  unfold reconcileList
  rw [List.map_append]
  congr 1
  · rw [list_filterMap_map_of_name entityName
      (fun p => (matchedOf catName cats prevs p).map (fun c => merge c p)) prevs ?_]
    · congr 1
      apply List.filter_congr
      intro p _
      unfold keptPrev
      rw [Option.isSome_map']
    · intro p _ y hy
      have hy2 : (matchedOf catName cats prevs p).map (fun c => merge c p) = some y := hy
      cases hmo : matchedOf catName cats prevs p with
      | none =>
        rw [hmo] at hy2
        cases hy2
      | some c =>
        rw [hmo] at hy2
        have hyc : merge c p = y := by simpa using hy2
        have hc : c ∈ cats := List.mem_of_find?_eq_some hmo
        rw [← hyc]
        exact hmergeName c hc p
  · rw [List.map_map]
    apply List.map_congr_left
    intro c hc
    exact hfreshName c (List.mem_of_mem_filter hc)

/-- C3: the final top-level order per category equals the previously
declared entities that still have a catalog match, in their previous
relative order with dropped entities removed, followed by the newly
discovered entities in catalog-yield order; in particular the
custom_model_order example with previous order B, A, F, C, J, Z, K and
catalog tables A, B, J, F, Z, M, L (yielded by the introspection
collaborator in name order, C and K absent) produces the order
B, A, F, J, Z, L, M. -/
theorem reconcile_order_law :
    (∀ (s : CatalogSchema) (d : Datamodel),
      (reconcile s d).1.models.map Model.name
        = (d.models.filter (keptPrev Table.name s.tables d.models)).map Model.name
          ++ (s.tables.filter (fun t =>
              decide (findMatch d.models (s.tables.map Table.name) t.name = none))).map
            Table.name
      ∧ (reconcile s d).1.enums.map PrismaEnum.name
        = (d.enums.filter (keptPrev CatEnum.name s.enums d.enums)).map PrismaEnum.name
          ++ (s.enums.filter (fun e =>
              decide (findMatch d.enums (s.enums.map CatEnum.name) e.name = none))).map
            CatEnum.name)
    ∧ (reconcile exOrderCatalog exOrderPrev).1.models.map Model.name
        = ["B", "A", "F", "J", "Z", "L", "M"] := by
  constructor
  · intro s d
    constructor
    · exact reconcileList_map_name Table.name mergeModel newModel s.tables d.models
        (fun _ _ _ => rfl) (fun _ _ => rfl)
    · exact reconcileList_map_name CatEnum.name mergeEnum newEnum s.enums d.enums
        (fun _ _ _ => rfl) (fun _ _ => rfl)
  · decide

theorem filter_code_mkWarning_ne (k j : Nat) (hne : j ≠ k) (msg : String)
    (aff : List Affected) :
    (mkWarning j msg aff).filter (fun w => decide (w.code = k)) = [] := by
  unfold mkWarning
  split
  · rfl
  · simp [hne]

theorem filter_code_mkWarning_eq (k : Nat) (msg : String) (aff : List Affected) :
    (mkWarning k msg aff).filter (fun w => decide (w.code = k)) = mkWarning k msg aff := by
  unfold mkWarning
  split
  · rfl
  · simp

/-- C2: for a previous AST consisting of one model whose mapped name
equals the name of a catalog table and whose own name does not occur
among the catalog table names, the merged AST keeps the previous model
name and its mapping attribute, and the warning list contains exactly
one code 7 warning whose affected sequence is the singleton model
record for that model. -/
theorem mapped_model_rename_roundtrip (s : CatalogSchema) (m : Model) (t : Table)
    (hN : (s.tables.map Table.name).Nodup)
    (ht : t ∈ s.tables)
    (hmap : m.mappedName = some t.name)
    (hname : m.name ∉ s.tables.map Table.name) :
    (∃ mOut, (reconcile s ⟨[m], []⟩).1.models.head? = some mOut ∧
      mOut.name = m.name ∧ mOut.mappedName = some t.name) ∧
    ((reconcile s ⟨[m], []⟩).2.filter (fun w => decide (w.code = 7)))
      = [⟨7, warnMessage7, [Affected.model m.name]⟩] := by
  have hfm : findMatch [m] (s.tables.map Table.name) t.name = some m := by
    apply findMatch_of_pass2
    · apply List.find?_eq_none.mpr
      intro x hx
      rw [List.mem_singleton] at hx
      subst hx
      simp only [decide_eq_true_eq]
      intro he
      have hxEq : x.name = t.name := he
      apply hname
      rw [hxEq]
      exact List.mem_map_of_mem Table.name ht
    · apply List.find?_cons_of_pos
      simp only [decide_eq_true_eq]
      exact ⟨hmap, hname⟩
  have hmo : matchedOf Table.name s.tables [m] m = some t := matchedOf_eq_some hN ht hfm
  have hmodels : (reconcile s ⟨[m], []⟩).1.models
      = mergeModel t m :: (s.tables.filter (fun c =>
          decide (findMatch [m] (s.tables.map Table.name) c.name = none))).map newModel := by
    show reconcileList Table.name mergeModel newModel s.tables [m] = _
    unfold reconcileList
    rw [List.filterMap_cons_some (by rw [hmo]; rfl), List.filterMap_nil,
      List.singleton_append]
  refine ⟨⟨mergeModel t m, ?_, rfl, hmap⟩, ?_⟩
  · rw [hmodels]
    rfl
  · have hA7 : affectedModels s.tables [m] = [Affected.model m.name] := by
      unfold affectedModels
      rw [List.filter_cons_of_pos]
      · rfl
      · unfold mappedKept
        rw [hmo]
        have hname2 : entityName m ∉ List.map Table.name s.tables := hname
        simp [hname2]
    have hw0 : (reconcile s ⟨[m], []⟩).2
        = mkWarning 7 warnMessage7 (affectedModels s.tables [m])
          ++ mkWarning 8 warnMessage8 (affectedFields s.tables [m])
          ++ mkWarning 9 warnMessage9 (affectedEnums s.enums [])
          ++ mkWarning 10 warnMessage10 (affectedEnumValues s.enums []) := rfl
    rw [hw0, hA7]
    have h9 : affectedEnums s.enums ([] : List PrismaEnum) = [] := rfl
    have h10 : affectedEnumValues s.enums ([] : List PrismaEnum) = [] := rfl
    rw [h9, h10]
    rw [List.filter_append, List.filter_append, List.filter_append]
    rw [filter_code_mkWarning_eq 7, filter_code_mkWarning_ne 7 8 (by decide),
      filter_code_mkWarning_ne 7 9 (by decide), filter_code_mkWarning_ne 7 10 (by decide)]
    simp [mkWarning]

/-- Witness for C2, at the input of the mapped_model_name test. -/
theorem mapped_model_rename_roundtrip_witness :
    (∃ mOut, (reconcile exMappedCatalog exMappedPrev).1.models.head? = some mOut ∧
      mOut.name = "Custom_User" ∧ mOut.mappedName = some "_User") ∧
    ((reconcile exMappedCatalog exMappedPrev).2.filter (fun w => decide (w.code = 7)))
      = [⟨7, warnMessage7, [Affected.model "Custom_User"]⟩] :=
  mapped_model_rename_roundtrip exMappedCatalog
    ⟨"Custom_User", some "_User", none, [exIdField], false⟩ (exTable "_User")
    (by decide) (by decide) (by decide) (by decide)

end Reconcile

namespace Reconcile

open Matchable

theorem mem_mkWarning_elim {k : Nat} {msg : String} {aff : List Affected} {w : Warning}
    (hw : w ∈ mkWarning k msg aff) : aff ≠ [] ∧ w = ⟨k, msg, aff⟩ := by
  unfold mkWarning at hw
  split at hw
  · cases hw
  · rename_i h
    refine ⟨by simpa using h, by simpa using hw⟩

theorem mkWarning_of_ne_nil {k : Nat} {msg : String} {aff : List Affected}
    (h : aff ≠ []) : mkWarning k msg aff = [⟨k, msg, aff⟩] := by
  unfold mkWarning
  rw [if_neg (by simpa using h)]

theorem code_mem_mkWarning_elim {k j : Nat} {msg : String} {aff : List Affected}
    (h : k ∈ (mkWarning j msg aff).map Warning.code) : k = j := by
  obtain ⟨w, hw, hc⟩ := List.mem_map.mp h
  obtain ⟨-, rfl⟩ := mem_mkWarning_elim hw
  exact hc.symm

theorem nodup_code_mkWarning {j : Nat} {msg : String} {aff : List Affected} :
    ((mkWarning j msg aff).map Warning.code).Nodup := by
  unfold mkWarning
  split
  · simp
  · simp

theorem affectedModels_all_shapes (tables : List Table) (prevs : List Model) :
    (affectedModels tables prevs).all Affected.isModelShape = true := by
  rw [List.all_eq_true]
  intro a ha
  unfold affectedModels at ha
  obtain ⟨p, -, he⟩ := List.mem_map.mp ha
  rw [← he]
  rfl

theorem affectedFields_all_shapes (tables : List Table) (prevs : List Model) :
    (affectedFields tables prevs).all Affected.isFieldShape = true := by
  rw [List.all_eq_true]
  intro a ha
  unfold affectedFields at ha
  obtain ⟨inner, hinner, hmem⟩ := List.mem_flatten.mp ha
  obtain ⟨p, -, he⟩ := List.mem_filterMap.mp hinner
  cases hmo : matchedOf Table.name tables prevs p with
  | none =>
    rw [hmo] at he
    cases he
  | some t =>
    rw [hmo] at he
    have he2 : (p.fields.filter (mappedKept Column.name t.columns p.fields)).map
        (fun f => Affected.field p.name f.name) = inner := by
      simpa using he
    rw [← he2] at hmem
    obtain ⟨f, -, hf⟩ := List.mem_map.mp hmem
    rw [← hf]
    rfl

theorem affectedEnums_all_shapes (enums : List CatEnum) (prevs : List PrismaEnum) :
    (affectedEnums enums prevs).all Affected.isEnumShape = true := by
  rw [List.all_eq_true]
  intro a ha
  unfold affectedEnums at ha
  obtain ⟨p, -, he⟩ := List.mem_map.mp ha
  rw [← he]
  rfl

theorem affectedEnumValues_all_shapes (enums : List CatEnum) (prevs : List PrismaEnum) :
    (affectedEnumValues enums prevs).all Affected.isEnumValueShape = true := by
  rw [List.all_eq_true]
  intro a ha
  unfold affectedEnumValues at ha
  obtain ⟨inner, hinner, hmem⟩ := List.mem_flatten.mp ha
  obtain ⟨p, -, he⟩ := List.mem_filterMap.mp hinner
  cases hmo : matchedOf CatEnum.name enums prevs p with
  | none =>
    rw [hmo] at he
    cases he
  | some e =>
    rw [hmo] at he
    have he2 : (p.values.filter (mappedKept (fun v => v) e.values p.values)).map
        (fun v => Affected.enumValue p.name v.name) = inner := by
      simpa using he
    rw [← he2] at hmem
    obtain ⟨v, -, hv⟩ := List.mem_map.mp hmem
    rw [← hv]
    rfl

/-- C6 (amended): the emitted warning list contains exactly one entry per
enrichment code that occurred and none for codes without occurrences;
each entry carries a nonempty affected sequence equal to the full
processing-order sequence for its code; the identifier record shapes
are the model record for code 7, the field record for code 8, the enum
record (not the model record) for code 9, and the enum value record for
code 10. -/
theorem warnings_taxonomy (s : CatalogSchema) (d : Datamodel) :
    (∀ w ∈ (reconcile s d).2,
      w.affected ≠ [] ∧
      ((w.code = 7 ∧ w.affected.all Affected.isModelShape = true ∧
          w.affected = affectedModels s.tables d.models) ∨
       (w.code = 8 ∧ w.affected.all Affected.isFieldShape = true ∧
          w.affected = affectedFields s.tables d.models) ∨
       (w.code = 9 ∧ w.affected.all Affected.isEnumShape = true ∧
          w.affected = affectedEnums s.enums d.enums) ∨
       (w.code = 10 ∧ w.affected.all Affected.isEnumValueShape = true ∧
          w.affected = affectedEnumValues s.enums d.enums))) ∧
    ((reconcile s d).2.map Warning.code).Nodup ∧
    (7 ∈ (reconcile s d).2.map Warning.code ↔ affectedModels s.tables d.models ≠ []) ∧
    (8 ∈ (reconcile s d).2.map Warning.code ↔ affectedFields s.tables d.models ≠ []) ∧
    (9 ∈ (reconcile s d).2.map Warning.code ↔ affectedEnums s.enums d.enums ≠ []) ∧
    (10 ∈ (reconcile s d).2.map Warning.code ↔ affectedEnumValues s.enums d.enums ≠ []) := by
  have hw0 : (reconcile s d).2
      = mkWarning 7 warnMessage7 (affectedModels s.tables d.models)
        ++ mkWarning 8 warnMessage8 (affectedFields s.tables d.models)
        ++ mkWarning 9 warnMessage9 (affectedEnums s.enums d.enums)
        ++ mkWarning 10 warnMessage10 (affectedEnumValues s.enums d.enums) := rfl
  refine ⟨?_, ?_, ?_, ?_, ?_, ?_⟩
  · intro w hw
    rw [hw0] at hw
    rcases List.mem_append.mp hw with hw1 | hw1
    rcases List.mem_append.mp hw1 with hw2 | hw2
    rcases List.mem_append.mp hw2 with hw3 | hw3
    · obtain ⟨hne, rfl⟩ := mem_mkWarning_elim hw3
      exact ⟨hne, Or.inl ⟨rfl, affectedModels_all_shapes _ _, rfl⟩⟩
    · obtain ⟨hne, rfl⟩ := mem_mkWarning_elim hw3
      exact ⟨hne, Or.inr (Or.inl ⟨rfl, affectedFields_all_shapes _ _, rfl⟩)⟩
    · obtain ⟨hne, rfl⟩ := mem_mkWarning_elim hw2
      exact ⟨hne, Or.inr (Or.inr (Or.inl ⟨rfl, affectedEnums_all_shapes _ _, rfl⟩))⟩
    · obtain ⟨hne, rfl⟩ := mem_mkWarning_elim hw1
      exact ⟨hne, Or.inr (Or.inr (Or.inr ⟨rfl, affectedEnumValues_all_shapes _ _, rfl⟩))⟩
  · rw [hw0, List.map_append, List.map_append, List.map_append]
    refine List.Nodup.append
      (List.Nodup.append
        (List.Nodup.append nodup_code_mkWarning nodup_code_mkWarning ?_)
        nodup_code_mkWarning ?_)
      nodup_code_mkWarning ?_
    · intro a h1 h2
      have e1 := code_mem_mkWarning_elim h1
      have e2 := code_mem_mkWarning_elim h2
      omega
    · intro a h1 h2
      have e2 := code_mem_mkWarning_elim h2
      rcases List.mem_append.mp h1 with h3 | h3
      · have e1 := code_mem_mkWarning_elim h3
        omega
      · have e1 := code_mem_mkWarning_elim h3
        omega
    · intro a h1 h2
      have e2 := code_mem_mkWarning_elim h2
      rcases List.mem_append.mp h1 with h3 | h3
      · rcases List.mem_append.mp h3 with h4 | h4
        · have e1 := code_mem_mkWarning_elim h4
          omega
        · have e1 := code_mem_mkWarning_elim h4
          omega
      · have e1 := code_mem_mkWarning_elim h3
        omega
  · rw [hw0, List.map_append, List.map_append, List.map_append]
    constructor
    · intro h
      rcases List.mem_append.mp h with h1 | h1
      rcases List.mem_append.mp h1 with h2 | h2
      rcases List.mem_append.mp h2 with h3 | h3
      · intro he
        rw [he] at h3
        simp [mkWarning] at h3
      · have := code_mem_mkWarning_elim h3
        omega
      · have := code_mem_mkWarning_elim h2
        omega
      · have := code_mem_mkWarning_elim h1
        omega
    · intro hne
      have h7 : (7 : Nat) ∈ (mkWarning 7 warnMessage7
          (affectedModels s.tables d.models)).map Warning.code := by
        rw [mkWarning_of_ne_nil hne]
        simp
      exact List.mem_append_left _ (List.mem_append_left _ (List.mem_append_left _ h7))
  · rw [hw0, List.map_append, List.map_append, List.map_append]
    constructor
    · intro h
      rcases List.mem_append.mp h with h1 | h1
      rcases List.mem_append.mp h1 with h2 | h2
      rcases List.mem_append.mp h2 with h3 | h3
      · have := code_mem_mkWarning_elim h3
        omega
      · intro he
        rw [he] at h3
        simp [mkWarning] at h3
      · have := code_mem_mkWarning_elim h2
        omega
      · have := code_mem_mkWarning_elim h1
        omega
    · intro hne
      have h8 : (8 : Nat) ∈ (mkWarning 8 warnMessage8
          (affectedFields s.tables d.models)).map Warning.code := by
        rw [mkWarning_of_ne_nil hne]
        simp
      exact List.mem_append_left _ (List.mem_append_left _ (List.mem_append_right _ h8))
  · rw [hw0, List.map_append, List.map_append, List.map_append]
    constructor
    · intro h
      rcases List.mem_append.mp h with h1 | h1
      rcases List.mem_append.mp h1 with h2 | h2
      rcases List.mem_append.mp h2 with h3 | h3
      · have := code_mem_mkWarning_elim h3
        omega
      · have := code_mem_mkWarning_elim h3
        omega
      · intro he
        rw [he] at h2
        simp [mkWarning] at h2
      · have := code_mem_mkWarning_elim h1
        omega
    · intro hne
      have h9 : (9 : Nat) ∈ (mkWarning 9 warnMessage9
          (affectedEnums s.enums d.enums)).map Warning.code := by
        rw [mkWarning_of_ne_nil hne]
        simp
      exact List.mem_append_left _ (List.mem_append_right _ h9)
  · rw [hw0, List.map_append, List.map_append, List.map_append]
    constructor
    · intro h
      rcases List.mem_append.mp h with h1 | h1
      rcases List.mem_append.mp h1 with h2 | h2
      rcases List.mem_append.mp h2 with h3 | h3
      · have := code_mem_mkWarning_elim h3
        omega
      · have := code_mem_mkWarning_elim h3
        omega
      · have := code_mem_mkWarning_elim h2
        omega
      · intro he
        rw [he] at h1
        simp [mkWarning] at h1
    · intro hne
      have h10 : (10 : Nat) ∈ (mkWarning 10 warnMessage10
          (affectedEnumValues s.enums d.enums)).map Warning.code := by
        rw [mkWarning_of_ne_nil hne]
        simp
      exact List.mem_append_right _ h10

/-- Witness for C6 (amended): the code 9 warning of the mapped_enum_name
test input satisfies the taxonomy, with enum-record shape. -/
theorem warnings_taxonomy_witness :
    (⟨9, warnMessage9, [Affected.enm "BlackNWhite"]⟩ : Warning).affected ≠ [] ∧
    (((⟨9, warnMessage9, [Affected.enm "BlackNWhite"]⟩ : Warning).code = 7 ∧
        (⟨9, warnMessage9, [Affected.enm "BlackNWhite"]⟩ : Warning).affected.all
          Affected.isModelShape = true ∧
        (⟨9, warnMessage9, [Affected.enm "BlackNWhite"]⟩ : Warning).affected
          = affectedModels exMappedEnumCatalog.tables exMappedEnumPrev.models) ∨
     ((⟨9, warnMessage9, [Affected.enm "BlackNWhite"]⟩ : Warning).code = 8 ∧
        (⟨9, warnMessage9, [Affected.enm "BlackNWhite"]⟩ : Warning).affected.all
          Affected.isFieldShape = true ∧
        (⟨9, warnMessage9, [Affected.enm "BlackNWhite"]⟩ : Warning).affected
          = affectedFields exMappedEnumCatalog.tables exMappedEnumPrev.models) ∨
     ((⟨9, warnMessage9, [Affected.enm "BlackNWhite"]⟩ : Warning).code = 9 ∧
        (⟨9, warnMessage9, [Affected.enm "BlackNWhite"]⟩ : Warning).affected.all
          Affected.isEnumShape = true ∧
        (⟨9, warnMessage9, [Affected.enm "BlackNWhite"]⟩ : Warning).affected
          = affectedEnums exMappedEnumCatalog.enums exMappedEnumPrev.enums) ∨
     ((⟨9, warnMessage9, [Affected.enm "BlackNWhite"]⟩ : Warning).code = 10 ∧
        (⟨9, warnMessage9, [Affected.enm "BlackNWhite"]⟩ : Warning).affected.all
          Affected.isEnumValueShape = true ∧
        (⟨9, warnMessage9, [Affected.enm "BlackNWhite"]⟩ : Warning).affected
          = affectedEnumValues exMappedEnumCatalog.enums exMappedEnumPrev.enums)) :=
  (warnings_taxonomy exMappedEnumCatalog exMappedEnumPrev).1
    ⟨9, warnMessage9, [Affected.enm "BlackNWhite"]⟩ (by decide)

/-- Counterexample to C6 as stated: at the mapped_enum_name test input
the single warning has code 9 and its affected record is the enum
record for BlackNWhite, which is not of the model record shape claimed
for code 9. -/
theorem warnings_code9_shape_counterexample :
    (reconcile exMappedEnumCatalog exMappedEnumPrev).2
      = [⟨9, warnMessage9, [Affected.enm "BlackNWhite"]⟩] ∧
    Affected.isModelShape (Affected.enm "BlackNWhite") = false := by
  constructor
  · decide
  · rfl

end Reconcile

namespace Reconcile

open Matchable

/-- C7: a catalog enum member whose raw value has no counterpart in the
previous schema surfaces as a new value carrying the raw value itself as
its name with no mapping attribute, so a member that is not a valid
identifier is representable only when the previous schema supplies a
mapped name for it; when such a mapping exists the value is matched via
the mapped-name pass and preserved, and the reconciliation of the
manually_re_mapped_invalid_enum_values test input preserves the enum
and emits the code 10 warning listing each affected enum value pair. -/
theorem enum_value_mapping_requirement :
    (∀ (raws : List String) (prevs : List EnumValue) (raw : String),
      raw ∈ raws →
      validIdent raw = false →
      (∀ p ∈ prevs, p.name ≠ raw) →
      (∀ p ∈ prevs, p.mappedName ≠ some raw) →
      EnumValue.mk raw none ∈ reconcileValues raws prevs) ∧
    (∀ (raws : List String) (prevs : List EnumValue) (v : EnumValue) (raw : String),
      v ∈ prevs →
      v.mappedName = some raw →
      raw ∈ raws →
      v.name ∉ raws →
      (∀ p ∈ prevs, p.name ≠ raw) →
      (∀ p ∈ prevs, p.mappedName = some raw → p = v) →
      v ∈ reconcileValues raws prevs ∧
        mappedKept (fun x => x) raws prevs v = true) ∧
    ((reconcile exEnumCatalog exEnumPrev).1.enums = exEnumPrev.enums ∧
      (reconcile exEnumCatalog exEnumPrev).2
        = [⟨10, warnMessage10,
            [Affected.enumValue "invalid" "at", Affected.enumValue "invalid" "dash"]⟩] ∧
      validIdent "@" = false ∧ validIdent "-" = false) := by
  refine ⟨?_, ?_, ?_, ?_, ?_⟩
  · intro raws prevs raw hraw _ hnoname hnomap
    have hnone : findMatch prevs (raws.map (fun v => v)) raw = none := by
      apply findMatch_eq_none_iff.mpr
      intro p hp
      exact ⟨hnoname p hp, fun hcontra => hnomap p hp hcontra.1⟩
    exact fresh_mem_reconcileList mergeEnumValue newEnumValue hraw hnone
  · intro raws prevs v raw hvmem hvmap hraw hvname hnoname huniq
    have hfm : findMatch prevs (raws.map (fun v => v)) raw = some v := by
      apply findMatch_of_pass2
      · apply List.find?_eq_none.mpr
        intro p hp
        simp only [decide_eq_true_eq]
        exact hnoname p hp
      · apply list_find?_unique hvmem
        intro p hp
        simp only [decide_eq_true_eq]
        constructor
        · rintro ⟨hm1, -⟩
          exact huniq p hp hm1
        · rintro rfl
          refine ⟨hvmap, ?_⟩
          simpa using hvname
    have hex : (matchedOf (fun x => x) raws prevs v).isSome := by
      apply List.find?_isSome.mpr
      exact ⟨raw, hraw, by simpa using hfm⟩
    obtain ⟨c1, hc1⟩ := Option.isSome_iff_exists.mp hex
    constructor
    · unfold reconcileValues reconcileList
      apply List.mem_append_left
      refine List.mem_filterMap.mpr ⟨v, hvmem, ?_⟩
      rw [hc1]
      rfl
    · unfold mappedKept
      rw [hc1]
      have hvn2 : entityName v ∉ raws := hvname
      simp [hvn2]
  · decide
  · decide
  · exact ⟨rfl, rfl⟩

/-- Witness for C7, at the manually_re_mapped_invalid_enum_values test
values. -/
theorem enum_value_mapping_requirement_witness :
    EnumValue.mk "@" none ∈ reconcileValues ["@", "-"] [] ∧
    (⟨"at", some "@"⟩ : EnumValue) ∈ reconcileValues ["@", "-"]
      [⟨"at", some "@"⟩, ⟨"dash", some "-"⟩] :=
  ⟨enum_value_mapping_requirement.1 ["@", "-"] [] "@" (by decide) (by decide)
      (by decide) (by decide),
   (enum_value_mapping_requirement.2.1 ["@", "-"]
      [⟨"at", some "@"⟩, ⟨"dash", some "-"⟩] ⟨"at", some "@"⟩ "@" (by decide)
      (by decide) (by decide) (by decide) (by decide) (by decide)).1⟩

/-- C8: for a matched column whose structural shape (type, nullability)
is unchanged and which has no catalog-visible default, a previously
declared client-side default generator annotation is retained verbatim,
the whole field being returned unchanged by the merger; at the
virtual_cuid_default test input, the merged AST keeps the previous
models unchanged and the warning list is empty. -/
theorem virtual_default_preserved :
    (∀ (c : Column) (p : ScalarField) (g : String),
      c.nativeDefault = none →
      p.fieldType = c.sqlType →
      p.optional = c.nullable →
      p.defaultValue = some (DefaultValue.clientGenerated g) →
      mergeField c p = p) ∧
    ((reconcile exCuidCatalog exCuidPrev).1.models
        = exCuidPrev.models ++ [newModel (exTable "Unrelated")] ∧
      (reconcile exCuidCatalog exCuidPrev).2 = []) := by
  refine ⟨?_, ?_, ?_⟩
  · intro c p g hnd hft hopt hdv
    rcases c with ⟨cn, ct, cnull, cnd⟩
    rcases p with ⟨pn, pm, pt, po, pd, pu, pdoc, pi⟩
    simp only at hnd hft hopt hdv
    subst hnd
    subst hft
    subst hopt
    subst hdv
    simp [mergeField]
  · decide
  · decide

/-- Witness for C8, at the id column of the virtual_cuid_default test. -/
theorem virtual_default_preserved_witness :
    mergeField ⟨"id", "varchar(30)", false, none⟩
        ⟨"id", none, "varchar(30)", false,
          some (DefaultValue.clientGenerated "cuid"), false, none, false⟩
      = ⟨"id", none, "varchar(30)", false,
          some (DefaultValue.clientGenerated "cuid"), false, none, false⟩ :=
  virtual_default_preserved.1 ⟨"id", "varchar(30)", false, none⟩
    ⟨"id", none, "varchar(30)", false,
      some (DefaultValue.clientGenerated "cuid"), false, none, false⟩ "cuid"
    rfl rfl rfl rfl

/-- C4: for an implicit many-to-many self-relation backed by an anonymous
two-column join table, the resolver discards the previous custom
relation field names entirely, regenerating the canonical stand-in
names referenced model underscore join column for the two list fields,
independently of the previous names; in the
do_not_try_to_keep_custom_many_to_many_self_relation_names test the
followers and following names give way to User_B and User_A. -/
theorem self_relation_names_regenerated :
    (∀ (j : SelfJoinTable) (p q : Option (String × String)),
      selfRelationFieldNames j p = selfRelationFieldNames j q) ∧
    (∀ (j : SelfJoinTable) (p : Option (String × String)),
      selfRelationFieldNames j p
        = (j.referencedModel ++ "_" ++ j.colB, j.referencedModel ++ "_" ++ j.colA)) ∧
    selfRelationFieldNames ⟨"User", "A", "B"⟩ (some ("followers", "following"))
      = ("User_B", "User_A") := by
  refine ⟨fun _ _ _ => rfl, fun _ _ => rfl, ?_⟩
  decide

/-- C5: the referential actions of a merged relation field are recomputed
from the live foreign-key constraint through the dialect default
resolution, independently of the values declared in the previous AST;
in particular a previous onUpdate of no action over an older MySQL
constraint with no explicit ON UPDATE clause is rewritten to restrict. -/
theorem referential_actions_recomputed :
    (∀ (d : SqlDialect) (fk : CatForeignKey) (p : RelationField),
      (mergeRelationField d fk p).onDelete
          = resolveReferentialAction d fk.onDeleteClause ∧
        (mergeRelationField d fk p).onUpdate
          = resolveReferentialAction d fk.onUpdateClause) ∧
    (∀ (d : SqlDialect) (fk : CatForeignKey) (p q : RelationField),
      (mergeRelationField d fk p).onDelete = (mergeRelationField d fk q).onDelete ∧
        (mergeRelationField d fk p).onUpdate = (mergeRelationField d fk q).onUpdate) ∧
    (mergeRelationField SqlDialect.mysqlOld
        ⟨["a_id"], "a", ["id"], some ReferentialAction.restrict, none⟩
        ⟨"a", none, ["a_id"], ReferentialAction.noAction,
          ReferentialAction.noAction⟩).onUpdate
      = ReferentialAction.restrict :=
  ⟨fun _ _ _ => ⟨rfl, rfl⟩, fun _ _ _ _ => ⟨rfl, rfl⟩, rfl⟩

end Reconcile

namespace QueryUtils

/-- C9 (amended): given an argument list whose first argument named where
carries a value converting to the input map m, extract_record_finder
returns an assertion error exactly when m has a number of entries
different from one; with exactly one entry whose key names a scalar
field of the model and whose value converts to a primitive value, it
returns the record finder for that field and value. -/
theorem extract_record_finder_spec (args : List ParsedArgument) (model : ModelStub)
    (whereArg : ParsedArgument) (m : List (String × ParsedInputValue))
    (hfind : args.find? (fun a => decide (a.name = "where")) = some whereArg)
    (hmap : tryIntoMap whereArg.value = some m) :
    ((∃ msg, extract_record_finder args model = ExtractResult.assertionError msg)
        ↔ m.length ≠ 1) ∧
    (∀ k v pv f, m = [(k, v)] → findFromScalar model k = some f →
      tryIntoPrismaValue v = some pv →
      extract_record_finder args model = ExtractResult.ok ⟨f, pv⟩) := by
  have hunf : extract_record_finder args model =
      (if m.length ≠ 1 then
        ExtractResult.assertionError
          ("Expected exactly one value for where argument, got: " ++
            String.intercalate ", " (m.map (fun v => v.1)))
      else
        match m with
        | [] => ExtractResult.panicked
        | (k, v) :: _ =>
          match findFromScalar model k with
          | none => ExtractResult.panicked
          | some f =>
            match tryIntoPrismaValue v with
            | none => ExtractResult.panicked
            | some pv => ExtractResult.ok ⟨f, pv⟩) := by
    simp only [extract_record_finder, hfind, hmap]
    by_cases hlen : m.length ≠ 1
    · rw [if_pos hlen, if_pos hlen]
    · rw [if_neg hlen, if_neg hlen]
      rcases m with _ | ⟨⟨k, v⟩, tl⟩
      · rfl
      · rfl
  have hunf1 : ∀ k v, m = [(k, v)] → extract_record_finder args model =
      (match findFromScalar model k with
        | none => ExtractResult.panicked
        | some f =>
          match tryIntoPrismaValue v with
          | none => ExtractResult.panicked
          | some pv => ExtractResult.ok ⟨f, pv⟩) := by
    intro k v hm
    subst hm
    rw [hunf]
    rfl
  constructor
  · constructor
    · rintro ⟨msg, hmsg⟩
      by_cases hlen : m.length = 1
      · exfalso
        obtain ⟨x, rfl⟩ := List.length_eq_one.mp hlen
        obtain ⟨k, v⟩ := x
        rw [hunf1 k v rfl] at hmsg
        cases hs : findFromScalar model k with
        | none =>
          rw [hs] at hmsg
          exact ExtractResult.noConfusion hmsg
        | some f =>
          rw [hs] at hmsg
          cases hv : tryIntoPrismaValue v with
          | none =>
            rw [hv] at hmsg
            exact ExtractResult.noConfusion hmsg
          | some pv =>
            rw [hv] at hmsg
            exact ExtractResult.noConfusion hmsg
      · exact hlen
    · intro hlen
      rw [hunf, if_pos hlen]
      exact ⟨_, rfl⟩
  · intro k v pv f hm hs hv
    rw [hunf1 k v hm, hs, hv]

/-- Witness for C9 (amended): a well-formed singleton where map produces
the record finder. -/
theorem extract_record_finder_spec_witness :
    extract_record_finder
        [⟨"where", ParsedInputValue.map
            [("id", ParsedInputValue.single (PrismaValue.int 3))]⟩]
        ⟨["id"]⟩
      = ExtractResult.ok ⟨"id", PrismaValue.int 3⟩ :=
  (extract_record_finder_spec
      [⟨"where", ParsedInputValue.map
          [("id", ParsedInputValue.single (PrismaValue.int 3))]⟩]
      ⟨["id"]⟩
      ⟨"where", ParsedInputValue.map
          [("id", ParsedInputValue.single (PrismaValue.int 3))]⟩
      [("id", ParsedInputValue.single (PrismaValue.int 3))] rfl rfl).2
    "id" (ParsedInputValue.single (PrismaValue.int 3)) (PrismaValue.int 3) "id"
    rfl rfl rfl

/-- Counterexample to C9 as stated: a where map with exactly one entry
naming a scalar field of the model, whose value is itself a map, makes
extract_record_finder panic on the value conversion unwrap instead of
returning a record finder. -/
theorem extract_record_finder_panics_on_unconvertible_value :
    extract_record_finder
        [⟨"where", ParsedInputValue.map [("id", ParsedInputValue.map [])]⟩]
        ⟨["id"]⟩
      = ExtractResult.panicked := by
  rfl

/-- C10: extract_record_finder avoids every panicking unwrap exactly
under the stated precondition: the argument list contains an argument
named where, the value of the first such argument converts to an input
map, and, when that map has exactly one entry, the key of that entry
names a scalar field of the model and its value converts to a primitive
value; in particular every argument list with no where argument
panics. -/
theorem extract_record_finder_no_panic_iff (args : List ParsedArgument)
    (model : ModelStub) :
    (extract_record_finder args model ≠ ExtractResult.panicked ↔
      rfPrecondition args model) ∧
    ((∀ a ∈ args, a.name ≠ "where") →
      extract_record_finder args model = ExtractResult.panicked) := by
  constructor
  · constructor
    · intro hne
      cases hfind : args.find? (fun a => decide (a.name = "where")) with
      | none =>
        exfalso
        apply hne
        simp only [extract_record_finder, hfind]
      | some whereArg =>
        cases hmap : tryIntoMap whereArg.value with
        | none =>
          exfalso
          apply hne
          simp only [extract_record_finder, hfind, hmap]
        | some m =>
          refine ⟨whereArg, m, hfind, hmap, ?_⟩
          intro k v hm
          subst hm
          have hunf1 : extract_record_finder args model =
              (match findFromScalar model k with
                | none => ExtractResult.panicked
                | some f =>
                  match tryIntoPrismaValue v with
                  | none => ExtractResult.panicked
                  | some pv => ExtractResult.ok ⟨f, pv⟩) := by
            simp only [extract_record_finder, hfind, hmap]
            rfl
          cases hs : findFromScalar model k with
          | none =>
            exfalso
            apply hne
            rw [hunf1, hs]
          | some f =>
            refine ⟨⟨f, rfl⟩, ?_⟩
            cases hv : tryIntoPrismaValue v with
            | none =>
              exfalso
              apply hne
              rw [hunf1, hs, hv]
            | some pv =>
              exact ⟨pv, rfl⟩
    · rintro ⟨whereArg, m, hfind, hmap, hspec⟩
      intro heq
      by_cases hlen : m.length = 1
      · obtain ⟨x, rfl⟩ := List.length_eq_one.mp hlen
        obtain ⟨k, v⟩ := x
        obtain ⟨⟨f, hf⟩, pv, hpv⟩ := hspec k v rfl
        have hok : extract_record_finder args model = ExtractResult.ok ⟨f, pv⟩ := by
          simp only [extract_record_finder, hfind, hmap]
          simp [hf, hpv]
        rw [hok] at heq
        exact ExtractResult.noConfusion heq
      · have hassert : extract_record_finder args model
            = ExtractResult.assertionError
              ("Expected exactly one value for where argument, got: " ++
                String.intercalate ", " (m.map (fun v => v.1))) := by
          simp only [extract_record_finder, hfind, hmap]
          rw [if_pos hlen]
        rw [hassert] at heq
        exact ExtractResult.noConfusion heq
  · intro hnone
    have hf : args.find? (fun a => decide (a.name = "where")) = none :=
      List.find?_eq_none.mpr (fun a ha => by simpa using hnone a ha)
    simp only [extract_record_finder, hf]

/-- Witness for C10: the empty argument list has no where argument and
extract_record_finder panics on it. -/
theorem extract_record_finder_no_panic_iff_witness :
    extract_record_finder [] ⟨["id"]⟩ = ExtractResult.panicked :=
  (extract_record_finder_no_panic_iff [] ⟨["id"]⟩).2 (by simp)

end QueryUtils
